import Mathlib

/-!
Verification of the PlayWise catalog engine (src/playWise.cpp) against its
natural-language specification.

The C++ program is shallowly embedded: each class's mutable state is modeled by an
explicit immutable value (the doubly-linked playlist by its forward traversal
sequence, `std::deque`s by lists, `std::map` by a key-sorted association list,
`std::stack` by a list with its top in front), and each member function by a pure
Lean function on that state, translated from the source walk by walk.  Machine
`int`s are modeled by `Int`.
-/

/-- Model of the C++ `struct Song` (src/playWise.cpp).  The `prev`/`next` links of
the doubly-linked node are represented by the node's position in the catalog
sequence.  The field `id` models the node's allocation identity (its machine
address, with allocation order increasing), which the C++ code compares with `==`
(deque membership tests) and with `>` (the `pair<int, Song*>` comparator used by
`getTop3CalmingSongs`). -/
structure Song where
  id : Nat
  title : String
  artist : String
  genre : String
  duration : Int
  deriving DecidableEq

namespace Playlist

/-- Model of `Playlist::get_all_songs`: the playlist state is its traversal
sequence, so the materialization is the identity. -/
def get_all_songs (l : List Song) : List Song := l

/-- Model of `Playlist::delete_song(int index)`.  The C++ code walks from the head
with a counter `i` while `temp && i < index`; if the walk exhausts the list the
call is a no-op, otherwise the node reached is unlinked.  Note that for
`index <= 0` (including negative indices) the walk stops at the head immediately
and the head is deleted. -/
def delete_song : List Song → Int → List Song
  | [], _ => []
  | x :: xs, index => if index ≤ 0 then xs else x :: delete_song xs (index - 1)

/-- Walk of `Playlist::move_song` that locates and unlinks the source node: walks
with a counter while `song_to_move && i < from_index`; returns `none` (overall
no-op) when the list is exhausted, otherwise the removed node and the remaining
sequence. -/
def removeWalk : List Song → Int → Option (Song × List Song)
  | [], _ => none
  | x :: xs, i =>
    if i ≤ 0 then some (x, xs)
    else
      match removeWalk xs (i - 1) with
      | none => none
      | some (s, r) => some (s, x :: r)

/-- Insertion walk of `Playlist::move_song`: walks with a counter while
`temp && i < to_index - 1` (here `j` is the remaining distance `to_index - 1 - i`);
if the walk exhausts the list the moved node is appended at the tail, otherwise it
is inserted right after the node reached. -/
def insertAfterWalk : List Song → Int → Song → List Song
  | [], _, s => [s]
  | x :: xs, j, s => if j ≤ 0 then x :: s :: xs else x :: insertAfterWalk xs (j - 1) s

/-- Model of `Playlist::move_song(int from_index, int to_index)`: no-op when the
indices are equal or the list is empty or `from_index` is past the tail; otherwise
the source node is unlinked, the target index is decremented when
`to_index > from_index`, and the node is re-inserted (at the front when the
adjusted target is `0`, otherwise after the node at adjusted target minus one). -/
def move_song (l : List Song) (fromIdx toIdx : Int) : List Song :=
  if fromIdx = toIdx then l
  else
    match removeWalk l fromIdx with
    | none => l
    | some (s, rest) =>
      let target := if toIdx > fromIdx then toIdx - 1 else toIdx
      if target = 0 then s :: rest
      else insertAfterWalk rest (target - 1) s

/-- Accumulator pass modeling the reversal loop of `Playlist::reverse_playlist`:
the C++ code makes a single pass from the head swapping each node's `prev`/`next`
links and finally swaps the head/tail anchors; on the traversal sequence this pass
moves each visited node in front of the already-reversed prefix. -/
def reverseLoop : List Song → List Song → List Song
  | acc, [] => acc
  | acc, x :: xs => reverseLoop (x :: acc) xs

/-- Model of `Playlist::reverse_playlist`. -/
def reverse_playlist (l : List Song) : List Song := reverseLoop [] l

theorem reverseLoop_eq (acc l : List Song) : reverseLoop acc l = l.reverse ++ acc := by
  induction l generalizing acc with
  | nil => simp [reverseLoop]
  | cons x xs ih => simp [reverseLoop, ih]

theorem removeWalk_eq (l : List Song) (i : Int) (s : Song) (h0 : 0 ≤ i)
    (hs : l[i.toNat]? = some s) :
    removeWalk l i = some (s, l.eraseIdx i.toNat) := by
  induction l generalizing i with
  | nil => simp at hs
  | cons x xs ih =>
    by_cases hle : i ≤ 0
    · have hi : i = 0 := le_antisymm hle h0
      subst hi
      simp only [Int.toNat_zero, List.getElem?_cons_zero, Option.some_inj] at hs
      simp [removeWalk, hs]
    · have h1 : (0 : Int) ≤ i - 1 := by omega
      have hsucc : i.toNat = (i - 1).toNat + 1 := by omega
      rw [hsucc] at hs
      rw [List.getElem?_cons_succ] at hs
      rw [removeWalk, if_neg hle, ih (i - 1) h1 hs, hsucc, List.eraseIdx_cons_succ]

theorem insertAfterWalk_eq (r : List Song) (j : Int) (s : Song) (h0 : 0 ≤ j)
    (h : j.toNat + 1 ≤ r.length) :
    insertAfterWalk r j s = r.insertIdx (j.toNat + 1) s := by
  induction r generalizing j with
  | nil => simp at h
  | cons x xs ih =>
    by_cases hle : j ≤ 0
    · have hj : j = 0 := le_antisymm hle h0
      subst hj
      simp [insertAfterWalk, List.insertIdx_succ_cons, List.insertIdx_zero]
    · have h1 : (0 : Int) ≤ j - 1 := by omega
      have hsucc : j.toNat = (j - 1).toNat + 1 := by omega
      have h2 : (j - 1).toNat + 1 ≤ xs.length := by
        simp only [List.length_cons] at h
        omega
      rw [insertAfterWalk, if_neg hle, ih (j - 1) h1 h2, hsucc, List.insertIdx_succ_cons]

theorem move_song_eq (l : List Song) (fromIdx toIdx : Int) (s : Song)
    (hf0 : 0 ≤ fromIdx) (ht0 : 0 ≤ toIdx)
    (hf : fromIdx.toNat < l.length) (ht : toIdx.toNat < l.length)
    (hne : fromIdx ≠ toIdx) (hs : l[fromIdx.toNat]? = some s) :
    move_song l fromIdx toIdx =
      (l.eraseIdx fromIdx.toNat).insertIdx
        (if fromIdx < toIdx then toIdx.toNat - 1 else toIdx.toNat) s := by
  have hlen : (l.eraseIdx fromIdx.toNat).length = l.length - 1 :=
    List.length_eraseIdx_of_lt hf
  rw [move_song, if_neg hne, removeWalk_eq l fromIdx s hf0 hs]
  by_cases hdir : toIdx > fromIdx
  · have hif : (if fromIdx < toIdx then toIdx.toNat - 1 else toIdx.toNat)
        = toIdx.toNat - 1 := if_pos hdir
    rw [hif]
    by_cases htz : toIdx - 1 = 0
    · have h2 : toIdx.toNat - 1 = 0 := by omega
      simp only [if_pos hdir, if_pos htz, h2, List.insertIdx_zero]
    · have hpos : (1 : Int) ≤ toIdx - 1 := by omega
      have h1 : (0 : Int) ≤ toIdx - 1 - 1 := by omega
      have h2 : (toIdx - 1 - 1).toNat + 1 ≤ (l.eraseIdx fromIdx.toNat).length := by
        rw [hlen]; omega
      simp only [if_pos hdir, if_neg htz]
      rw [insertAfterWalk_eq _ _ _ h1 h2]
      congr 1
      omega
  · have hlt : toIdx < fromIdx := by omega
    have hif : (if fromIdx < toIdx then toIdx.toNat - 1 else toIdx.toNat)
        = toIdx.toNat := if_neg (by omega)
    rw [hif]
    by_cases htz : toIdx = 0
    · subst htz
      have hng : ¬ ((0 : Int) > fromIdx) := by omega
      simp [if_neg hng, List.insertIdx_zero]
    · have h1 : (0 : Int) ≤ toIdx - 1 := by omega
      have h2 : (toIdx - 1).toNat + 1 ≤ (l.eraseIdx fromIdx.toNat).length := by
        rw [hlen]; omega
      simp only [if_neg hdir, if_neg htz]
      rw [insertAfterWalk_eq _ _ _ h1 h2]
      congr 1
      omega

end Playlist

/-- Concrete track used in witnesses and counterexamples. -/
def songA : Song := ⟨0, "A", "ArtistOne", "Jazz", 200⟩

/-- Concrete track used in witnesses and counterexamples. -/
def songB : Song := ⟨1, "B", "ArtistTwo", "Jazz", 150⟩

/-- Concrete track used in witnesses and counterexamples. -/
def songC : Song := ⟨2, "C", "ArtistThree", "Rock", 100⟩

/-- C1 (counterexample): on the catalog [A, B, C], `move_song 0 2` produces
[B, A, C] — the moved element ends at position 1, not at position 2 — whereas the
claim requires the result [B, C, A]. -/
theorem moveTo_zero_two_counterexample :
    Playlist.move_song [songA, songB, songC] 0 2 = [songB, songA, songC] ∧
    Playlist.move_song [songA, songB, songC] 0 2 ≠ [songB, songC, songA] := by
  constructor
  · rfl
  · decide

/-- C1 (amended): for distinct in-range indices, `move_song fromIdx toIdx` removes
the element at `fromIdx` and re-inserts it so that it ends up at position
`toIdx - 1` for a forward move (`fromIdx < toIdx`) and at position `toIdx` for a
backward move; equivalently, the adjusted target index is interpreted as an
insert-at position in the sequence left after removal of the source element.  In
particular `move_song [A,B,C] 0 2 = [B,A,C]`. -/
theorem moveTo_relocates_with_post_removal_index (l : List Song) (fromIdx toIdx : Int)
    (s : Song) (hf0 : 0 ≤ fromIdx) (ht0 : 0 ≤ toIdx)
    (hf : fromIdx.toNat < l.length) (ht : toIdx.toNat < l.length)
    (hne : fromIdx ≠ toIdx) (hs : l[fromIdx.toNat]? = some s) :
    Playlist.move_song l fromIdx toIdx =
      (l.eraseIdx fromIdx.toNat).insertIdx
        (if fromIdx < toIdx then toIdx.toNat - 1 else toIdx.toNat) s :=
  Playlist.move_song_eq l fromIdx toIdx s hf0 ht0 hf ht hne hs

/-- Witness for the amended C1 theorem at the catalog [A, B, C] with a forward
move from index 0 to index 2. -/
theorem moveTo_relocates_witness :
    Playlist.move_song [songA, songB, songC] 0 2 =
      (([songA, songB, songC].eraseIdx (Int.toNat 0)).insertIdx
        (if (0 : Int) < 2 then (Int.toNat 2) - 1 else Int.toNat 2) songA) :=
  moveTo_relocates_with_post_removal_index [songA, songB, songC] 0 2 songA
    (by decide) (by decide) (by decide) (by decide) (by decide) (by decide)

/-- C5 (confirmed): on every non-empty catalog, `reverse_playlist` composed with
itself restores the original order, and a single `reverse_playlist` is the exact
reversal of the traversal order. -/
theorem reverse_playlist_involution (l : List Song) (_h : l ≠ []) :
    Playlist.reverse_playlist (Playlist.reverse_playlist l) = l ∧
    Playlist.reverse_playlist l = l.reverse := by
  have h1 : ∀ m : List Song, Playlist.reverse_playlist m = m.reverse := by
    intro m
    rw [Playlist.reverse_playlist, Playlist.reverseLoop_eq, List.append_nil]
  exact ⟨by rw [h1, h1, List.reverse_reverse], h1 l⟩

/-- Witness for C5 at the two-element catalog [A, B]. -/
theorem reverse_playlist_involution_witness :
    Playlist.reverse_playlist (Playlist.reverse_playlist [songA, songB]) = [songA, songB] ∧
    Playlist.reverse_playlist [songA, songB] = [songA, songB].reverse :=
  reverse_playlist_involution [songA, songB] (by decide)

/-- C7 (code bug): `delete_song` with the out-of-bounds index `-1` on the
non-empty catalog [A] is not a no-op: the locating walk stops at the head
immediately (the loop guard `i < index` is already false at `i = 0`), so the head
element A is unlinked and the catalog becomes empty. -/
theorem delete_song_negative_index_deletes_head :
    Playlist.delete_song [songA] (-1) = [] ∧ ([songA] : List Song) ≠ [] := by
  constructor
  · rfl
  · decide

namespace RecentlySkippedTracker

/-- Model of `RecentlySkippedTracker::addSkippedSong` (capacity `MAX_SKIPPED = 10`):
an existing entry for the song is erased from the deque, the song is pushed to the
front, and if the size now exceeds the capacity the back (oldest) entry is popped. -/
def addSkippedSong (song : Song) (skippedSongs : List Song) : List Song :=
  let afterErase := skippedSongs.erase song
  let afterPush := song :: afterErase
  if afterPush.length > 10 then afterPush.dropLast else afterPush

/-- Model of `RecentlySkippedTracker::isRecentlySkipped`: linear membership scan. -/
def isRecentlySkipped (skippedSongs : List Song) (song : Song) : Bool :=
  skippedSongs.contains song

/-- Window reached from the empty tracker by the touch sequence `ops` (earliest
touch first), as used by the C4 invariant statement. -/
def windowAfter (ops : List Song) : List Song :=
  ops.foldl (fun w s => addSkippedSong s w) []

end RecentlySkippedTracker

namespace RecentlyAddedTracker

/-- Model of `RecentlyAddedTracker::addRecentSong` (capacity `MAX_RECENT = 15`):
identical shape to `addSkippedSong` with the larger capacity. -/
def addRecentSong (song : Song) (recentlyAdded : List Song) : List Song :=
  let afterErase := recentlyAdded.erase song
  let afterPush := song :: afterErase
  if afterPush.length > 15 then afterPush.dropLast else afterPush

/-- Window reached from the empty tracker by the touch sequence `ops` (earliest
touch first). -/
def windowAfter (ops : List Song) : List Song :=
  ops.foldl (fun w s => addRecentSong s w) []

end RecentlyAddedTracker

theorem addSkippedSong_eq_take (song : Song) (w : List Song) (h : w.length ≤ 10) :
    RecentlySkippedTracker.addSkippedSong song w = (song :: w.erase song).take 10 := by
  unfold RecentlySkippedTracker.addSkippedSong
  have hle : (w.erase song).length ≤ 10 := le_trans (List.length_erase_le _ _) h
  by_cases hgt : (song :: w.erase song).length > 10
  · simp only [if_pos hgt]
    have hlen : (song :: w.erase song).length = 11 := by
      simp only [List.length_cons] at hgt ⊢
      omega
    rw [List.dropLast_eq_take, hlen]
  · simp only [if_neg hgt]
    rw [List.take_of_length_le (by omega)]

theorem addRecentSong_eq_take (song : Song) (w : List Song) (h : w.length ≤ 15) :
    RecentlyAddedTracker.addRecentSong song w = (song :: w.erase song).take 15 := by
  unfold RecentlyAddedTracker.addRecentSong
  have hle : (w.erase song).length ≤ 15 := le_trans (List.length_erase_le _ _) h
  by_cases hgt : (song :: w.erase song).length > 15
  · simp only [if_pos hgt]
    have hlen : (song :: w.erase song).length = 16 := by
      simp only [List.length_cons] at hgt ⊢
      omega
    rw [List.dropLast_eq_take, hlen]
  · simp only [if_neg hgt]
    rw [List.take_of_length_le (by omega)]

theorem skipWindow_invariant (ops : List Song) :
    ∀ (w : List Song), w.Nodup → w.length ≤ 10 →
      (ops.foldl (fun acc s => RecentlySkippedTracker.addSkippedSong s acc) w).Nodup ∧
      (ops.foldl (fun acc s => RecentlySkippedTracker.addSkippedSong s acc) w).length ≤ 10 := by
  induction ops with
  | nil => intro w hnd hlen; exact ⟨hnd, hlen⟩
  | cons s rest ih =>
    intro w hnd hlen
    rw [List.foldl_cons]
    refine ih _ ?_ ?_
    · rw [addSkippedSong_eq_take s w hlen]
      exact (List.take_sublist _ _).nodup
        (List.nodup_cons.mpr ⟨hnd.not_mem_erase, hnd.erase s⟩)
    · rw [addSkippedSong_eq_take s w hlen]
      simp [List.length_take]

theorem recentWindow_invariant (ops : List Song) :
    ∀ (w : List Song), w.Nodup → w.length ≤ 15 →
      (ops.foldl (fun acc s => RecentlyAddedTracker.addRecentSong s acc) w).Nodup ∧
      (ops.foldl (fun acc s => RecentlyAddedTracker.addRecentSong s acc) w).length ≤ 15 := by
  induction ops with
  | nil => intro w hnd hlen; exact ⟨hnd, hlen⟩
  | cons s rest ih =>
    intro w hnd hlen
    rw [List.foldl_cons]
    refine ih _ ?_ ?_
    · rw [addRecentSong_eq_take s w hlen]
      exact (List.take_sublist _ _).nodup
        (List.nodup_cons.mpr ⟨hnd.not_mem_erase, hnd.erase s⟩)
    · rw [addRecentSong_eq_take s w hlen]
      simp [List.length_take]

/-- C4 (confirmed): starting from an empty tracker, after any touch sequence
ending with track `t`, the skip window (capacity 10) and the addition window
(capacity 15) each have size at most their capacity, contain no duplicate
reference, and have `t` — the most recently touched track — at the front.
Moreover each touch acts as "erase the track, push it to the front, keep the
first `capacity` entries", so when the capacity would be exceeded it is exactly
the last (least-recently-touched) entry that is evicted. -/
theorem recencyTracker_invariants (ops : List Song) (t : Song) :
    (RecentlySkippedTracker.windowAfter (ops ++ [t])).length ≤ 10 ∧
    (RecentlySkippedTracker.windowAfter (ops ++ [t])).Nodup ∧
    (RecentlySkippedTracker.windowAfter (ops ++ [t])).head? = some t ∧
    (RecentlyAddedTracker.windowAfter (ops ++ [t])).length ≤ 15 ∧
    (RecentlyAddedTracker.windowAfter (ops ++ [t])).Nodup ∧
    (RecentlyAddedTracker.windowAfter (ops ++ [t])).head? = some t ∧
    (∀ (w : List Song) (s : Song), w.length ≤ 10 →
      RecentlySkippedTracker.addSkippedSong s w = (s :: w.erase s).take 10) ∧
    (∀ (w : List Song) (s : Song), w.length ≤ 15 →
      RecentlyAddedTracker.addRecentSong s w = (s :: w.erase s).take 15) := by
  have h10 := skipWindow_invariant ops [] List.nodup_nil (by simp)
  have h15 := recentWindow_invariant ops [] List.nodup_nil (by simp)
  have e10 : RecentlySkippedTracker.windowAfter (ops ++ [t]) =
      RecentlySkippedTracker.addSkippedSong t (RecentlySkippedTracker.windowAfter ops) := by
    rw [RecentlySkippedTracker.windowAfter, RecentlySkippedTracker.windowAfter,
      List.foldl_append, List.foldl_cons, List.foldl_nil]
  have e15 : RecentlyAddedTracker.windowAfter (ops ++ [t]) =
      RecentlyAddedTracker.addRecentSong t (RecentlyAddedTracker.windowAfter ops) := by
    rw [RecentlyAddedTracker.windowAfter, RecentlyAddedTracker.windowAfter,
      List.foldl_append, List.foldl_cons, List.foldl_nil]
  have t10 := addSkippedSong_eq_take t (RecentlySkippedTracker.windowAfter ops) h10.2
  have t15 := addRecentSong_eq_take t (RecentlyAddedTracker.windowAfter ops) h15.2
  have inv10 := skipWindow_invariant (ops ++ [t]) [] List.nodup_nil (by simp)
  have inv15 := recentWindow_invariant (ops ++ [t]) [] List.nodup_nil (by simp)
  refine ⟨inv10.2, inv10.1, ?_, inv15.2, inv15.1, ?_, ?_, ?_⟩
  · rw [e10, t10]
    rfl
  · rw [e15, t15]
    rfl
  · intro w s hw
    exact addSkippedSong_eq_take s w hw
  · intro w s hw
    exact addRecentSong_eq_take s w hw

/-- Witness for C4 at a concrete touch sequence: the tracker is touched with
B, A, B (so A and B each touched under capacity), ending with t = B. -/
theorem recencyTracker_invariants_witness :
    (RecentlySkippedTracker.windowAfter ([songB, songA] ++ [songB])).length ≤ 10 ∧
    (RecentlySkippedTracker.windowAfter ([songB, songA] ++ [songB])).Nodup ∧
    (RecentlySkippedTracker.windowAfter ([songB, songA] ++ [songB])).head? = some songB ∧
    (RecentlyAddedTracker.windowAfter ([songB, songA] ++ [songB])).length ≤ 15 ∧
    (RecentlyAddedTracker.windowAfter ([songB, songA] ++ [songB])).Nodup ∧
    (RecentlyAddedTracker.windowAfter ([songB, songA] ++ [songB])).head? = some songB ∧
    (∀ (w : List Song) (s : Song), w.length ≤ 10 →
      RecentlySkippedTracker.addSkippedSong s w = (s :: w.erase s).take 10) ∧
    (∀ (w : List Song) (s : Song), w.length ≤ 15 →
      RecentlyAddedTracker.addRecentSong s w = (s :: w.erase s).take 15) :=
  recencyTracker_invariants [songB, songA] songB


namespace SongRatingTree

/-- State of `SongRatingTree`: the `std::map<int, vector<Song*>> ratingMap`,
modeled as an association list strictly sorted by rating in ascending order (the
in-order enumeration of the balanced search tree). -/
abbrev RatingMap := List (Int × List Song)

/-- Model of `ratingMap[rating]` (the `std::map` subscript operator) as a read:
returns the vector stored at `rating`, together with the map after the subscript
access, which default-inserts an empty vector at `rating` when the key is
absent, keeping the keys sorted. -/
def mapIndex : RatingMap → Int → (List Song × RatingMap)
  | [], rating => ([], [(rating, [])])
  | (k, v) :: rest, rating =>
    if rating < k then ([], (rating, []) :: (k, v) :: rest)
    else if rating = k then (v, (k, v) :: rest)
    else
      let result := mapIndex rest rating
      (result.1, (k, v) :: result.2)

/-- Model of `ratingMap[rating]` followed by an in-place update of the referenced
vector, as done by `insert_song` and `delete_song`. -/
def mapModify (m : RatingMap) (rating : Int) (f : List Song → List Song) : RatingMap :=
  match m with
  | [] => [(rating, f [])]
  | (k, v) :: rest =>
    if rating < k then (rating, f []) :: (k, v) :: rest
    else if rating = k then (k, f v) :: rest
    else (k, v) :: mapModify rest rating f

/-- Model of `SongRatingTree::insert_song`: `ratingMap[rating].push_back(song)`. -/
def insert_song (m : RatingMap) (song : Song) (rating : Int) : RatingMap :=
  mapModify m rating (fun v => v ++ [song])

/-- Model of `SongRatingTree::search_by_rating`: `return ratingMap[rating];` — a
read that default-inserts an empty group when the rating key is absent. -/
def search_by_rating (m : RatingMap) (rating : Int) : List Song × RatingMap :=
  mapIndex m rating

/-- Model of `SongRatingTree::delete_song`: `auto& vec = ratingMap[rating];
vec.erase(remove(vec.begin(), vec.end(), song), vec.end());` — the erase–remove
idiom drops every element equal to `song`, keeping the others in order. -/
def delete_song (m : RatingMap) (song : Song) (rating : Int) : RatingMap :=
  mapModify m rating (fun v => v.filter (fun x => x ≠ song))

/-- Model of `SongRatingTree::get_song_count_by_rating`: iterates the map in
ascending key order, recording each group's size. -/
def get_song_count_by_rating (m : RatingMap) : List (Int × Int) :=
  m.map (fun p => (p.1, (p.2.length : Int)))

/-- Pure read of the group stored for a rating (no default insertion); absent
ratings read as the empty group. -/
def groupOf (m : RatingMap) (rating : Int) : List Song :=
  match m with
  | [] => []
  | (k, v) :: rest => if rating = k then v else groupOf rest rating

end SongRatingTree

namespace SongRatingTree

theorem groupOf_eq_nil (m : RatingMap) (r : Int) (h : ∀ p ∈ m, r ≠ p.1) :
    groupOf m r = [] := by
  induction m with
  | nil => rfl
  | cons p rest ih =>
    rw [groupOf]
    rw [if_neg (h p (List.mem_cons_self p rest))]
    exact ih (fun q hq => h q (List.mem_cons_of_mem p hq))

theorem groupOf_mapModify_self (m : RatingMap) (rating : Int) (f : List Song → List Song)
    (hsort : m.Pairwise (fun a b => a.1 < b.1)) :
    groupOf (mapModify m rating f) rating = f (groupOf m rating) := by
  induction m with
  | nil => simp [mapModify, groupOf]
  | cons p rest ih =>
    obtain ⟨k, v⟩ := p
    rw [List.pairwise_cons] at hsort
    by_cases hlt : rating < k
    · rw [mapModify, if_pos hlt, groupOf, if_pos rfl]
      have hnil : groupOf ((k, v) :: rest) rating = [] := by
        refine groupOf_eq_nil _ _ ?_
        intro q hq
        rcases List.mem_cons.mp hq with hq | hq
        · rw [hq]; omega
        · have := hsort.1 q hq
          omega
      rw [hnil]
    · by_cases heq : rating = k
      · rw [mapModify, if_neg hlt, if_pos heq, groupOf, if_pos heq, groupOf, if_pos heq]
      · rw [mapModify, if_neg hlt, if_neg heq, groupOf, if_neg heq, groupOf, if_neg heq]
        exact ih hsort.2

theorem groupOf_mapModify_other (m : RatingMap) (rating r : Int) (f : List Song → List Song)
    (hne : r ≠ rating) :
    groupOf (mapModify m rating f) r = groupOf m r := by
  induction m with
  | nil => simp [mapModify, groupOf, if_neg hne]
  | cons p rest ih =>
    obtain ⟨k, v⟩ := p
    by_cases hlt : rating < k
    · rw [mapModify, if_pos hlt, groupOf, if_neg hne]
    · by_cases heq : rating = k
      · have hrk : r ≠ k := heq ▸ hne
        rw [mapModify, if_neg hlt, if_pos heq, groupOf, if_neg hrk, groupOf, if_neg hrk]
      · by_cases hrk : r = k
        · rw [mapModify, if_neg hlt, if_neg heq, groupOf, if_pos hrk, groupOf, if_pos hrk]
        · rw [mapModify, if_neg hlt, if_neg heq, groupOf, if_neg hrk, groupOf, if_neg hrk]
          exact ih

end SongRatingTree

/-- C8 (counterexample): with the same track inserted twice under rating 5,
`delete_song` empties the whole group — the erase–remove idiom removes every
occurrence, not just the first one, so no occurrence remains. -/
theorem ratingTree_delete_counterexample :
    SongRatingTree.delete_song [((5 : Int), [songA, songA])] songA 5 = [(5, [])] ∧
    SongRatingTree.delete_song [((5 : Int), [songA, songA])] songA 5 ≠ [(5, [songA])] := by
  constructor
  · rfl
  · decide

/-- C8 (amended): on a rating map with strictly ascending keys (the `std::map`
invariant), `delete_song song rating` removes every occurrence of the reference
from that rating's group, leaves every other rating's group unchanged, and is a
no-op on the group's contents when the reference is absent from it. -/
theorem ratingTree_delete_removes_all_occurrences (m : SongRatingTree.RatingMap)
    (song : Song) (rating : Int) (hsort : m.Pairwise (fun a b => a.1 < b.1)) :
    SongRatingTree.groupOf (SongRatingTree.delete_song m song rating) rating =
      (SongRatingTree.groupOf m rating).filter (fun x => x ≠ song) ∧
    (∀ r, r ≠ rating →
      SongRatingTree.groupOf (SongRatingTree.delete_song m song rating) r =
        SongRatingTree.groupOf m r) ∧
    (song ∉ SongRatingTree.groupOf m rating →
      SongRatingTree.groupOf (SongRatingTree.delete_song m song rating) rating =
        SongRatingTree.groupOf m rating) := by
  refine ⟨?_, ?_, ?_⟩
  · exact SongRatingTree.groupOf_mapModify_self m rating _ hsort
  · intro r hr
    exact SongRatingTree.groupOf_mapModify_other m rating r _ hr
  · intro habs
    rw [SongRatingTree.delete_song, SongRatingTree.groupOf_mapModify_self m rating _ hsort]
    refine List.filter_eq_self.mpr ?_
    intro a ha
    simp only [decide_eq_true_eq]
    intro hcontra
    exact habs (hcontra ▸ ha)

/-- Witness for the amended C8 theorem on the map holding the duplicated
track A under rating 5. -/
theorem ratingTree_delete_removes_all_witness :
    SongRatingTree.groupOf
        (SongRatingTree.delete_song [((5 : Int), [songA, songA])] songA 5) 5 =
      (SongRatingTree.groupOf [((5 : Int), [songA, songA])] 5).filter
        (fun x => x ≠ songA) :=
  (ratingTree_delete_removes_all_occurrences [((5 : Int), [songA, songA])] songA 5
    (by decide)).1

/-- C10 (confirmed): `search_by_rating` is not a pure read — on a rating with no
prior insertion it returns the empty group but also default-inserts an empty
vector for that key, so the subsequent `get_song_count_by_rating` enumeration
contains the entry `(rating, 0)`, which was absent before the search. -/
theorem search_by_rating_creates_empty_group (m : SongRatingTree.RatingMap)
    (rating : Int) (habsent : ∀ p ∈ m, p.1 ≠ rating) :
    (SongRatingTree.search_by_rating m rating).1 = [] ∧
    (rating, (0 : Int)) ∈
      SongRatingTree.get_song_count_by_rating (SongRatingTree.search_by_rating m rating).2 ∧
    (∀ q ∈ SongRatingTree.get_song_count_by_rating m, q.1 ≠ rating) := by
  refine ⟨?_, ?_, ?_⟩
  · induction m with
    | nil => rfl
    | cons p rest ih =>
      obtain ⟨k, v⟩ := p
      have hk : k ≠ rating := habsent (k, v) (List.mem_cons_self _ _)
      rw [SongRatingTree.search_by_rating, SongRatingTree.mapIndex]
      by_cases hlt : rating < k
      · rw [if_pos hlt]
      · rw [if_neg hlt, if_neg (fun h => hk h.symm)]
        exact ih (fun q hq => habsent q (List.mem_cons_of_mem _ hq))
  · induction m with
    | nil =>
      simp [SongRatingTree.search_by_rating, SongRatingTree.mapIndex,
        SongRatingTree.get_song_count_by_rating]
    | cons p rest ih =>
      obtain ⟨k, v⟩ := p
      have hk : k ≠ rating := habsent (k, v) (List.mem_cons_self _ _)
      rw [SongRatingTree.search_by_rating, SongRatingTree.mapIndex]
      by_cases hlt : rating < k
      · rw [if_pos hlt]
        simp [SongRatingTree.get_song_count_by_rating]
      · rw [if_neg hlt, if_neg (fun h => hk h.symm)]
        have := ih (fun q hq => habsent q (List.mem_cons_of_mem _ hq))
        rw [SongRatingTree.search_by_rating] at this
        simp only [SongRatingTree.get_song_count_by_rating, List.map_cons, List.mem_cons]
        right
        exact this
  · intro q hq
    simp only [SongRatingTree.get_song_count_by_rating, List.mem_map] at hq
    obtain ⟨p, hp, hpq⟩ := hq
    rw [← hpq]
    exact habsent p hp

/-- Witness for C10 on the empty rating map with rating 3. -/
theorem search_by_rating_creates_empty_group_witness :
    (SongRatingTree.search_by_rating [] 3).1 = [] ∧
    ((3 : Int), (0 : Int)) ∈
      SongRatingTree.get_song_count_by_rating (SongRatingTree.search_by_rating [] 3).2 ∧
    (∀ q ∈ SongRatingTree.get_song_count_by_rating [], q.1 ≠ 3) :=
  search_by_rating_creates_empty_group [] 3 (by intro p hp; simp at hp)

/-- ASCII lowercase transform applied per character by `::tolower` in the
default C locale. -/
def asciiLower (c : Char) : Char :=
  if 'A' ≤ c ∧ c ≤ 'Z' then Char.ofNat (c.toNat + 32) else c

/-- Model of `transform(s.begin(), s.end(), s.begin(), ::tolower)` on a
`std::string`. -/
def strToLower (s : String) : String := String.mk (s.data.map asciiLower)

namespace AutoReplaySystem

/-- The `calmingGenres` member of `AutoReplaySystem` — note that the source list
has a sixth entry, "Lofi", beyond the five genres named by the specification. -/
def calmingGenres : List String :=
  ["Lo-Fi", "Jazz", "Classical", "Ambient", "Chill", "Lofi"]

/-- Model of `AutoReplaySystem::isCalming`: lowercases the argument and compares
it for equality against each lowercased entry of `calmingGenres`. -/
def isCalming (genre : String) : Bool :=
  let lowerGenre := strToLower genre
  calmingGenres.any (fun calming => strToLower calming == lowerGenre)

/-- Play count read used by `getTop3CalmingSongs`:
`playCounts.count(song->title) ? playCounts.at(song->title) : 0`. -/
def playCountOf (playCounts : List (String × Int)) (title : String) : Int :=
  match playCounts.find? (fun p => p.1 == title) with
  | some p => p.2
  | none => 0

/-- The comparator `greater<pair<int, Song*>>` passed to `sort`: lexicographic
strictly-greater on the (play count, node address) pair. -/
def pairGreater (a b : Int × Song) : Bool :=
  decide (b.1 < a.1) || (decide (a.1 = b.1) && decide (b.2.id < a.2.id))

/-- Insertion of one element into a run already sorted by `pairGreater`. -/
def insertPair (p : Int × Song) : List (Int × Song) → List (Int × Song)
  | [] => [p]
  | q :: qs => if pairGreater p q then p :: q :: qs else q :: insertPair p qs

/-- Model of `sort(calmingSongs.begin(), calmingSongs.end(),
greater<pair<int, Song*>>())`.  On the pair lists the program builds, distinct
entries hold nodes with distinct addresses, so the comparator is a strict total
order and every comparison sort — whatever algorithm `std::sort` picks —
produces this unique sorted arrangement. -/
def sortPairs : List (Int × Song) → List (Int × Song)
  | [] => []
  | p :: ps => insertPair p (sortPairs ps)

/-- The local vector `calmingSongs` built by the filtering loop of
`AutoReplaySystem::getTop3CalmingSongs`: for each song whose genre is calming
and that is not in the skip tracker's window, the pair of its play count and
the song, in catalog order. -/
def candidatePairs (allSongs : List Song) (playCounts : List (String × Int))
    (skippedSongs : List Song) : List (Int × Song) :=
  (allSongs.filter (fun song =>
    isCalming song.genre &&
      !(RecentlySkippedTracker.isRecentlySkipped skippedSongs song))).map
    (fun song => (playCountOf playCounts song.title, song))

/-- Model of `AutoReplaySystem::getTop3CalmingSongs`: build `calmingSongs`,
return the empty vector if no song qualifies, otherwise sort by the descending
pair comparator and return the first `min(3, size)` songs. -/
def getTop3CalmingSongs (allSongs : List Song) (playCounts : List (String × Int))
    (skippedSongs : List Song) : List Song :=
  let calmingSongs := candidatePairs allSongs playCounts skippedSongs
  if calmingSongs.isEmpty then []
  else ((sortPairs calmingSongs).take 3).map (fun p => p.2)

theorem insertPair_perm (p : Int × Song) (l : List (Int × Song)) :
    List.Perm (insertPair p l) (p :: l) := by
  induction l with
  | nil => exact List.Perm.refl _
  | cons q qs ih =>
    rw [insertPair]
    by_cases h : pairGreater p q
    · rw [if_pos h]
    · rw [if_neg h]
      exact ((ih.cons q).trans (List.Perm.swap p q qs))

theorem sortPairs_perm (l : List (Int × Song)) : List.Perm (sortPairs l) l := by
  induction l with
  | nil => exact List.Perm.refl _
  | cons p ps ih => exact (insertPair_perm p (sortPairs ps)).trans (ih.cons p)

end AutoReplaySystem

namespace AutoReplaySystem

theorem mem_candidatePairs (allSongs : List Song) (playCounts : List (String × Int))
    (skippedSongs : List Song) (p : Int × Song)
    (hp : p ∈ candidatePairs allSongs playCounts skippedSongs) :
    p.2 ∈ allSongs ∧ isCalming p.2.genre = true ∧
    RecentlySkippedTracker.isRecentlySkipped skippedSongs p.2 = false ∧
    p.1 = playCountOf playCounts p.2.title := by
  rw [candidatePairs] at hp
  obtain ⟨song, hsong, rfl⟩ := List.mem_map.mp hp
  obtain ⟨hmem, hpred⟩ := List.mem_filter.mp hsong
  obtain ⟨hc, hns⟩ := Bool.and_eq_true_iff.mp hpred
  exact ⟨hmem, hc, by simpa using hns, rfl⟩

theorem mem_getTop3 (allSongs : List Song) (playCounts : List (String × Int))
    (skippedSongs : List Song) (s : Song)
    (hs : s ∈ getTop3CalmingSongs allSongs playCounts skippedSongs) :
    s ∈ allSongs ∧ isCalming s.genre = true ∧
    RecentlySkippedTracker.isRecentlySkipped skippedSongs s = false := by
  rw [getTop3CalmingSongs] at hs
  by_cases he : (candidatePairs allSongs playCounts skippedSongs).isEmpty
  · simp only [if_pos he, List.not_mem_nil] at hs
  · simp only [if_neg he] at hs
    obtain ⟨p, hp, rfl⟩ := List.mem_map.mp hs
    have hp2 : p ∈ sortPairs (candidatePairs allSongs playCounts skippedSongs) :=
      List.take_subset _ _ hp
    have hp3 : p ∈ candidatePairs allSongs playCounts skippedSongs :=
      (sortPairs_perm _).subset hp2
    obtain ⟨h1, h2, h3, _⟩ := mem_candidatePairs _ _ _ _ hp3
    exact ⟨h1, h2, h3⟩

end AutoReplaySystem

/-- C2 (confirmed): `getTop3CalmingSongs` returns only tracks whose genre is
calming and that are absent from the skip tracker's window, returns at most 3
tracks, and returns the empty sequence (not an error) when no track qualifies. -/
theorem getTop3_filter_and_bound (allSongs : List Song)
    (playCounts : List (String × Int)) (skippedSongs : List Song) :
    (∀ s ∈ AutoReplaySystem.getTop3CalmingSongs allSongs playCounts skippedSongs,
      AutoReplaySystem.isCalming s.genre = true ∧
      RecentlySkippedTracker.isRecentlySkipped skippedSongs s = false) ∧
    (AutoReplaySystem.getTop3CalmingSongs allSongs playCounts skippedSongs).length ≤ 3 ∧
    ((∀ s ∈ allSongs, AutoReplaySystem.isCalming s.genre = false ∨
        RecentlySkippedTracker.isRecentlySkipped skippedSongs s = true) →
      AutoReplaySystem.getTop3CalmingSongs allSongs playCounts skippedSongs = []) := by
  refine ⟨?_, ?_, ?_⟩
  · intro s hs
    exact (AutoReplaySystem.mem_getTop3 allSongs playCounts skippedSongs s hs).2
  · rw [AutoReplaySystem.getTop3CalmingSongs]
    by_cases he : (AutoReplaySystem.candidatePairs allSongs playCounts skippedSongs).isEmpty
    · rw [if_pos he]
      simp
    · rw [if_neg he]
      simp only [List.length_map]
      have := List.length_take_le 3
        (AutoReplaySystem.sortPairs (AutoReplaySystem.candidatePairs allSongs playCounts skippedSongs))
      omega
  · intro hall
    have hnil : AutoReplaySystem.candidatePairs allSongs playCounts skippedSongs = [] := by
      rw [AutoReplaySystem.candidatePairs]
      have : allSongs.filter (fun song =>
          AutoReplaySystem.isCalming song.genre &&
            !(RecentlySkippedTracker.isRecentlySkipped skippedSongs song)) = [] := by
        rw [List.filter_eq_nil_iff]
        intro a ha
        rcases hall a ha with h | h
        · simp [h]
        · simp [h]
      rw [this, List.map_nil]
    rw [AutoReplaySystem.getTop3CalmingSongs, hnil]
    rfl

/-- Witness for C2 at a catalog where nothing qualifies (C is Rock): all three
conjuncts instantiated, the last at the concrete hypothesis. -/
theorem getTop3_filter_and_bound_witness :
    (∀ s ∈ AutoReplaySystem.getTop3CalmingSongs [songC] [] [],
      AutoReplaySystem.isCalming s.genre = true ∧
      RecentlySkippedTracker.isRecentlySkipped [] s = false) ∧
    (AutoReplaySystem.getTop3CalmingSongs [songC] [] []).length ≤ 3 ∧
    ((∀ s ∈ [songC], AutoReplaySystem.isCalming s.genre = false ∨
        RecentlySkippedTracker.isRecentlySkipped [] s = true) →
      AutoReplaySystem.getTop3CalmingSongs [songC] [] [] = []) :=
  getTop3_filter_and_bound [songC] [] []

namespace AutoReplaySystem

theorem pairGreater_iff (a b : Int × Song) :
    pairGreater a b = true ↔ (b.1 < a.1 ∨ (a.1 = b.1 ∧ b.2.id < a.2.id)) := by
  simp [pairGreater]

theorem pairGreater_trans {a b c : Int × Song} (h1 : pairGreater a b = true)
    (h2 : pairGreater b c = true) : pairGreater a c = true := by
  rw [pairGreater_iff] at h1 h2 ⊢
  omega

theorem pairGreater_total {a b : Int × Song} (h : a.2.id ≠ b.2.id) :
    pairGreater a b = true ∨ pairGreater b a = true := by
  rw [pairGreater_iff, pairGreater_iff]
  omega

theorem insertPair_sorted (p : Int × Song) (l : List (Int × Song))
    (hl : l.Pairwise (fun a b => pairGreater a b = true))
    (htot : ∀ q ∈ l, pairGreater p q = true ∨ pairGreater q p = true) :
    (insertPair p l).Pairwise (fun a b => pairGreater a b = true) := by
  induction l with
  | nil => simp [insertPair]
  | cons q qs ih =>
    rw [insertPair]
    rw [List.pairwise_cons] at hl
    by_cases h : pairGreater p q
    · rw [if_pos h]
      refine List.pairwise_cons.mpr ⟨?_, List.pairwise_cons.mpr hl⟩
      intro r hr
      rcases List.mem_cons.mp hr with rfl | hr
      · exact h
      · exact pairGreater_trans h (hl.1 r hr)
    · rw [if_neg h]
      have hqp : pairGreater q p = true := by
        rcases htot q (List.mem_cons_self q qs) with h1 | h1
        · exact absurd h1 h
        · exact h1
      refine List.pairwise_cons.mpr
        ⟨?_, ih hl.2 (fun r hr => htot r (List.mem_cons_of_mem _ hr))⟩
      intro r hr
      rcases List.mem_cons.mp ((insertPair_perm p qs).subset hr) with rfl | hr2
      · exact hqp
      · exact hl.1 r hr2

theorem sortPairs_sorted (l : List (Int × Song))
    (hids : l.Pairwise (fun a b => a.2.id ≠ b.2.id)) :
    (sortPairs l).Pairwise (fun a b => pairGreater a b = true) := by
  induction l with
  | nil => simp [sortPairs]
  | cons p ps ih =>
    rw [sortPairs]
    rw [List.pairwise_cons] at hids
    refine insertPair_sorted p _ (ih hids.2) ?_
    intro q hq
    exact pairGreater_total (hids.1 q ((sortPairs_perm ps).subset hq))

end AutoReplaySystem

/-- C3 (counterexample): A and B are both calming (Jazz), have equal play
counts, nothing is skipped, and A appears before B in the catalog; yet
`getTop3CalmingSongs` returns [B, A] — the tie is broken by the descending
node-address component of `greater<pair<int, Song*>>`, not by catalog order,
so the earlier candidate A does not rank first. -/
theorem getTop3_tiebreak_counterexample :
    AutoReplaySystem.getTop3CalmingSongs [songA, songB] [] [] = [songB, songA] ∧
    AutoReplaySystem.playCountOf [] songA.title =
      AutoReplaySystem.playCountOf [] songB.title ∧
    songA ≠ songB := by
  refine ⟨rfl, rfl, by decide⟩

/-- C3 (amended): on a catalog of distinct nodes, `getTop3CalmingSongs` returns
its tracks ordered by play count descending, with ties broken by descending
node address (allocation identity) — for two qualifying candidates with equal
play count it is the one with the greater address, not the one earlier in the
input list, that ranks first. -/
theorem getTop3_ranking (allSongs : List Song) (playCounts : List (String × Int))
    (skippedSongs : List Song)
    (hids : allSongs.Pairwise (fun a b => a.id ≠ b.id)) :
    (AutoReplaySystem.getTop3CalmingSongs allSongs playCounts skippedSongs).Pairwise
      (fun s t =>
        AutoReplaySystem.playCountOf playCounts t.title <
            AutoReplaySystem.playCountOf playCounts s.title ∨
          (AutoReplaySystem.playCountOf playCounts s.title =
              AutoReplaySystem.playCountOf playCounts t.title ∧ t.id < s.id)) := by
  rw [AutoReplaySystem.getTop3CalmingSongs]
  by_cases he : (AutoReplaySystem.candidatePairs allSongs playCounts skippedSongs).isEmpty
  · rw [if_pos he]
    exact List.Pairwise.nil
  · rw [if_neg he]
    have hcs : (AutoReplaySystem.candidatePairs allSongs playCounts skippedSongs).Pairwise
        (fun a b => a.2.id ≠ b.2.id) := by
      rw [AutoReplaySystem.candidatePairs]
      exact List.pairwise_map.mpr (hids.filter _)
    have hsorted := AutoReplaySystem.sortPairs_sorted _ hcs
    have htake := hsorted.sublist (List.take_sublist 3 _)
    refine List.pairwise_map.mpr (htake.imp_of_mem ?_)
    intro a b ha hb hR
    have hamem : a ∈ AutoReplaySystem.candidatePairs allSongs playCounts skippedSongs :=
      (AutoReplaySystem.sortPairs_perm _).subset (List.take_subset _ _ ha)
    have hbmem : b ∈ AutoReplaySystem.candidatePairs allSongs playCounts skippedSongs :=
      (AutoReplaySystem.sortPairs_perm _).subset (List.take_subset _ _ hb)
    have ha1 := (AutoReplaySystem.mem_candidatePairs _ _ _ _ hamem).2.2.2
    have hb1 := (AutoReplaySystem.mem_candidatePairs _ _ _ _ hbmem).2.2.2
    rw [AutoReplaySystem.pairGreater_iff] at hR
    rw [← ha1, ← hb1]
    exact hR

/-- Witness for the amended C3 theorem at the two-Jazz-track catalog. -/
theorem getTop3_ranking_witness :
    (AutoReplaySystem.getTop3CalmingSongs [songA, songB] [] []).Pairwise
      (fun s t =>
        AutoReplaySystem.playCountOf [] t.title <
            AutoReplaySystem.playCountOf [] s.title ∨
          (AutoReplaySystem.playCountOf [] s.title =
              AutoReplaySystem.playCountOf [] t.title ∧ t.id < s.id)) :=
  getTop3_ranking [songA, songB] [] [] (by decide)

/-- Membership test exactly as the specification words it: case-insensitive
comparison against the five genres Lo-Fi, Jazz, Classical, Ambient, Chill.
Stated from the spec only, to be compared against the code's `isCalming`. -/
def specIsCalmingFive (genre : String) : Bool :=
  ["Lo-Fi", "Jazz", "Classical", "Ambient", "Chill"].any
    (fun c => strToLower c == strToLower genre)

/-- C6 (counterexample): the genre string "Lofi" is accepted by the code's
`isCalming` — the source's `calmingGenres` has a sixth entry "Lofi" — although
it is not case-insensitively equal to any of the five genres the claim lists. -/
theorem isCalming_lofi_counterexample :
    AutoReplaySystem.isCalming "Lofi" = true ∧ specIsCalmingFive "Lofi" = false := by
  exact ⟨by decide, by decide⟩

/-- C6 (amended): `isCalming g` returns true exactly when `g`, compared
case-insensitively, equals one of the SIX genres Lo-Fi, Jazz, Classical,
Ambient, Chill, Lofi. -/
theorem isCalming_iff (g : String) :
    AutoReplaySystem.isCalming g = true ↔
      strToLower g ∈ ["lo-fi", "jazz", "classical", "ambient", "chill", "lofi"] := by
  have e1 : strToLower "Lo-Fi" = "lo-fi" := by decide
  have e2 : strToLower "Jazz" = "jazz" := by decide
  have e3 : strToLower "Classical" = "classical" := by decide
  have e4 : strToLower "Ambient" = "ambient" := by decide
  have e5 : strToLower "Chill" = "chill" := by decide
  have e6 : strToLower "Lofi" = "lofi" := by decide
  simp only [AutoReplaySystem.isCalming, AutoReplaySystem.calmingGenres,
    List.any_cons, List.any_nil, Bool.or_eq_true, beq_iff_eq, Bool.false_eq_true,
    or_false, e1, e2, e3, e4, e5, e6, List.mem_cons, List.not_mem_nil]
  exact or_congr eq_comm (or_congr eq_comm (or_congr eq_comm
    (or_congr eq_comm (or_congr eq_comm eq_comm))))

/-- State of `PlaylistPlayer`: the playback cursor (`currentIndex`, starting at
-1), the playing flag, and the current song pointer. -/
structure PlaylistPlayer where
  currentIndex : Int
  isPlaying : Bool
  currentSong : Option Song
  deriving DecidableEq

/-- Model of `playCounts[song->title]++` on the `unordered_map<string, int>`:
increment the entry, default-inserting the count 0 first when the key is
absent. -/
def bumpCount : List (String × Int) → String → List (String × Int)
  | [], title => [(title, 1)]
  | (k, v) :: rest, title =>
    if k = title then (k, v + 1) :: rest else (k, v) :: bumpCount rest title

/-- Model of `PlaybackHistory::add`: push onto the history stack (top first). -/
def historyAdd (song : Song) (history : List Song) : List Song := song :: history

/-- Model of `PlaylistPlayer::playNext(playlist, ph, playCounts)`.  The C++
method materializes the songs, reports failure on an empty playlist, reports
"Reached end of playlist" (returning false and leaving every field of the
player untouched) when `currentIndex + 1 >= songs.size()`, and otherwise
advances the cursor, marks the player playing, pushes the song to the history
and bumps its play count.  The result tuple is (returned bool, player state,
history, play counts); the `none` branch of the subscript lookup is unreachable
whenever `currentIndex ≥ -1`, which holds in every reachable player state. -/
def playNext (player : PlaylistPlayer) (playlist : List Song) (ph : List Song)
    (playCounts : List (String × Int)) :
    Bool × PlaylistPlayer × List Song × List (String × Int) :=
  let songs := Playlist.get_all_songs playlist
  if songs.isEmpty then (false, player, ph, playCounts)
  else if player.currentIndex + 1 ≥ (songs.length : Int) then (false, player, ph, playCounts)
  else
    match songs[(player.currentIndex + 1).toNat]? with
    | some song =>
      (true, ⟨player.currentIndex + 1, true, some song⟩, historyAdd song ph,
        bumpCount playCounts song.title)
    | none => (false, player, ph, playCounts)

/-- C9 (counterexample): with the single-track catalog [A] and the player
playing at index 0, `playNext` signals end-of-playlist (returns false) but does
NOT transition the player to the stopped state: `isPlaying` stays true and the
whole player state is unchanged. -/
theorem playNext_end_not_stopped_counterexample :
    (playNext ⟨0, true, some songA⟩ [songA] [] []).1 = false ∧
    ((playNext ⟨0, true, some songA⟩ [songA] [] []).2.1).isPlaying = true ∧
    (playNext ⟨0, true, some songA⟩ [songA] [] []).2.1 = ⟨0, true, some songA⟩ := by
  exact ⟨rfl, rfl, rfl⟩

/-- C9 (amended): for a non-empty catalog and a reachable player state
(`currentIndex ≥ -1`), `playNext` advances the playback index by exactly 1 and
emits a play event (history push and play-count increment) when
`currentIndex + 1 < length`; otherwise it signals end-reached by returning
false and leaves the player state — including the playing flag — and the
history and counts completely unchanged (no transition to a stopped state). -/
theorem playNext_spec (player : PlaylistPlayer) (playlist : List Song)
    (ph : List Song) (playCounts : List (String × Int))
    (hne : playlist ≠ []) (_hidx : -1 ≤ player.currentIndex) :
    (∀ song, playlist[(player.currentIndex + 1).toNat]? = some song →
      player.currentIndex + 1 < (playlist.length : Int) →
      playNext player playlist ph playCounts =
        (true, ⟨player.currentIndex + 1, true, some song⟩, historyAdd song ph,
          bumpCount playCounts song.title)) ∧
    (player.currentIndex + 1 ≥ (playlist.length : Int) →
      playNext player playlist ph playCounts = (false, player, ph, playCounts)) := by
  have hni : playlist.isEmpty = false := by
    cases playlist with
    | nil => exact absurd rfl hne
    | cons x xs => rfl
  constructor
  · intro song hsong hlt
    rw [playNext]
    simp only [Playlist.get_all_songs, hni, Bool.false_eq_true, if_false]
    rw [if_neg (not_le.mpr hlt), hsong]
  · intro hge
    rw [playNext]
    simp only [Playlist.get_all_songs, hni, Bool.false_eq_true, if_false]
    rw [if_pos hge]

/-- Witness for the amended C9 theorem: the freshly constructed player (index
-1) on the catalog [A, B] plays A, pushes it to the history and bumps its
count. -/
theorem playNext_spec_witness :
    playNext ⟨-1, false, none⟩ [songA, songB] [] [] =
      (true, ⟨-1 + 1, true, some songA⟩, historyAdd songA [],
        bumpCount [] songA.title) :=
  (playNext_spec ⟨-1, false, none⟩ [songA, songB] [] [] (by decide) (by decide)).1
    songA (by decide) (by decide)
